import Mathlib

/-!
Shallow embedding of `src/blocks/sign-in/sign-in.js` (a client-side sign-in
widget) and proofs about its credential-validation and decision flow.

JavaScript strings are modelled as `List Char` (`JStr`).  JavaScript's
`String.prototype.trim` / the regex class `\s` are modelled by the explicit
Unicode white-space set JS uses.  `localStorage` is modelled as an
association list of key/value string pairs.  DOM / timer side effects are
modelled as an explicit list of `Effect` values produced by the submit
handler; the wall clock (`new Date().toISOString()`) is modelled as an
input parameter carrying the ISO timestamp string.
-/

namespace SignInModel

abbrev JStr := List Char

/-- The character set matched by JavaScript's `\s` (and trimmed by
`String.prototype.trim`). -/
def jsWhitespace (c : Char) : Bool :=
  let n := c.toNat
  n == 32 || n == 9 || n == 10 || n == 13 || n == 11 || n == 12 ||
  n == 0xA0 || n == 0x1680 || (Nat.ble 0x2000 n && Nat.ble n 0x200A) ||
  n == 0x2028 || n == 0x2029 || n == 0x202F || n == 0x205F ||
  n == 0x3000 || n == 0xFEFF

/-- JavaScript `s.trim()`: strip leading and trailing `\s` characters. -/
def trim (s : JStr) : JStr :=
  ((s.dropWhile jsWhitespace).reverse.dropWhile jsWhitespace).reverse

/-- JavaScript `s.toLowerCase()` restricted to the ASCII range (the only
range exercised by this widget). -/
def toLowerCase (s : JStr) : JStr := s.map Char.toLower

/-- A character matched by the regex class `[^\s@]` of
`/^[^\s@]+@[^\s@]+\.[^\s@]+$/` in `isValidEmail` (sign-in.js line 83). -/
def isEmailAtomChar (c : Char) : Bool := !jsWhitespace c && !(c == '@')

/-- `emailRegex.test s` for `emailRegex = /^[^\s@]+@[^\s@]+\.[^\s@]+$/`
(sign-in.js line 83-84).  Since `[^\s@]` excludes `@`, an anchored match
must split the string at its first `@`: a non-empty all-atom part before
it, and after it a non-empty all-atom tail containing a `.` that is
neither its first nor its last character. -/
def emailMatch (s : JStr) : Bool :=
  let before := s.takeWhile (fun c => !(c == '@'))
  let rest := s.dropWhile (fun c => !(c == '@'))
  !before.isEmpty && !rest.isEmpty &&
  before.all isEmailAtomChar && (rest.drop 1).all isEmailAtomChar &&
  ((rest.drop 1).drop 1).dropLast.any (fun c => c == '.')

/-- A JavaScript value handed to `isValidEmail`: a string, or any
non-string value (the `typeof email !== "string"` branch). -/
inductive JSValue where
  | str (s : JStr)
  | nonString
deriving DecidableEq

/-- `isValidEmail` (sign-in.js lines 81-85): reject non-strings and the
empty string (both falsy/`typeof` guarded), otherwise test the email
regex against the trimmed value. -/
def isValidEmail : JSValue → Bool
  | .str s => if s.isEmpty then false else emailMatch (trim s)
  | .nonString => false

/-- `isValidEmail` applied to a string value. -/
def isValidEmailS (s : JStr) : Bool := isValidEmail (.str s)

/-- The pattern of the claim, stated declaratively: one-or-more non-space
non-`@` characters, a literal `@`, one-or-more such characters, a literal
`.`, and one-or-more such characters. -/
def emailPatternSpec (s : JStr) : Prop :=
  ∃ a b c : JStr, a ≠ [] ∧ b ≠ [] ∧ c ≠ [] ∧
    a.all isEmailAtomChar ∧ b.all isEmailAtomChar ∧ c.all isEmailAtomChar ∧
    s = a ++ '@' :: (b ++ '.' :: c)

/-- `localStorage`, modelled as an association list from keys to values. -/
abbrev Storage := List (JStr × JStr)

/-- `localStorage.getItem`, returning `none` for a missing key (JS `null`). -/
def getItem (st : Storage) (key : JStr) : Option JStr := List.lookup key st

/-- The fixed key of the registered-email record (sign-in.js lines 128-129). -/
def REGISTERED_EMAIL_KEY : JStr :=
  "com.adobe.reactor.dataElements.Profile - Email".toList

/-- The fixed session-flag key (sign-in.js line 167). -/
def SESSION_FLAG_KEY : JStr := "luma_user_logged_in".toList

def MSG_INVALID_EMAIL : JStr := "Please enter a valid email address".toList
def MSG_EMPTY_PASSWORD : JStr := "Please enter your password".toList
def MSG_NO_ACCOUNT : JStr :=
  "No account found. Please create an account first.".toList
def MSG_MISMATCH : JStr :=
  "Email not found. Please check your email or create an account.".toList
def MSG_SUCCESS : JStr := "Sign-in successful! Redirecting...".toList
def MSG_SIGNIN_FAILED : JStr := "Sign-in failed. Please try again.".toList
def MSG_FIELDS_NOT_FOUND : JStr := "Form fields not found".toList

/-- `registeredEmail.replace(/[\*\"\']/g, "").trim()` (sign-in.js lines
134-136): delete every asterisk, double-quote (code 34) and single-quote
(code 39) character, then trim surrounding whitespace. -/
def sanitizeStored (v : JStr) : JStr :=
  trim (v.filter (fun c => !(c == '*' || c.toNat == 34 || c.toNat == 39)))

/-- The credential-store reader (sign-in.js lines 128-145): read the fixed
key; if the value is truthy, sanitize it; treat the record as absent when
the key is missing, the value is empty after sanitization, or the
sanitized value fails `isValidEmail`. -/
def readCredential (st : Storage) : Option JStr :=
  match getItem st REGISTERED_EMAIL_KEY with
  | none => none
  | some v0 =>
    let v := if v0.isEmpty then v0 else sanitizeStored v0
    if v.isEmpty || !(isValidEmailS v) then none else some v

inductive AuthOutcome where
  | Accepted
  | RejectedInvalidEmail
  | RejectedEmptyPassword
  | RejectedNoAccount
  | RejectedMismatch
deriving DecidableEq

inductive MsgKind where
  | success
  | error
deriving DecidableEq

inductive FieldRef where
  | emailField
  | passwordField
deriving DecidableEq

/-- Observable side effects of the submit handler.  `storageRemove` is
never produced by this flow; it is included so that "the flow never
deletes a key" is expressible. -/
inductive Effect where
  | storageWrite (key value : JStr)
  | storageRemove (key : JStr)
  | dispatchEvent (name : JStr) (bubbles : Bool) (email timestamp : JStr)
  | showMessage (kind : MsgKind) (text : JStr)
  | focus (f : FieldRef)
  | scheduleRedirect (target : JStr) (delayMs : Nat)
deriving DecidableEq

/-- The `try` block of the success path (sign-in.js lines 165-185):
write the session flag, dispatch the bubbling `login` event carrying the
entered email and the current ISO timestamp, show the success message and
schedule the 1500 ms redirect to the site root.  A storage-write failure
is modelled by `storageOk = false`: the first statement throws, so none
of the four effects happen (`Except.error`). -/
def applySuccessEffects (storageOk : Bool) (enteredEmail nowIso : JStr) :
    Except Unit (List Effect) :=
  if storageOk then
    .ok [ .storageWrite SESSION_FLAG_KEY ("true".toList),
          .dispatchEvent ("login".toList) true enteredEmail nowIso,
          .showMessage .success MSG_SUCCESS,
          .scheduleRedirect ("/".toList) 1500 ]
  else .error ()

/-- The submit handler after both inputs were found (sign-in.js lines
110-190), as a pure function from the storage contents, both input
values and the clock's ISO timestamp to the decision and the list of
effects.  Console logging (lines 148-152, 187) is not modelled. -/
def handleSubmit (storageOk : Bool) (st : Storage)
    (emailValue passwordValue nowIso : JStr) : AuthOutcome × List Effect :=
  let enteredEmail := trim emailValue
  let enteredPassword := passwordValue
  if !(isValidEmailS enteredEmail) then
    (.RejectedInvalidEmail,
      [.showMessage .error MSG_INVALID_EMAIL, .focus .emailField])
  else if enteredPassword.isEmpty || (trim enteredPassword).isEmpty then
    (.RejectedEmptyPassword,
      [.showMessage .error MSG_EMPTY_PASSWORD, .focus .passwordField])
  else
    match readCredential st with
    | none => (.RejectedNoAccount, [.showMessage .error MSG_NO_ACCOUNT])
    | some registeredEmail =>
      if !(toLowerCase enteredEmail == toLowerCase registeredEmail) then
        (.RejectedMismatch,
          [.showMessage .error MSG_MISMATCH, .focus .emailField])
      else
        match applySuccessEffects storageOk enteredEmail nowIso with
        | .ok fx => (.Accepted, fx)
        | .error _ =>
          (.Accepted, [.showMessage .error MSG_SIGNIN_FAILED])

/-- The whole submit listener (sign-in.js lines 98-190), including the
guard for missing input elements (lines 102-108), whose presence is
modelled by the `fields` option. -/
def handleSubmitEvent (storageOk : Bool) (st : Storage)
    (fields : Option (JStr × JStr)) (nowIso : JStr) :
    Option AuthOutcome × List Effect :=
  match fields with
  | none => (none, [.showMessage .error MSG_FIELDS_NOT_FOUND])
  | some (e, p) =>
    let r := handleSubmit storageOk st e p nowIso
    (some r.1, r.2)

/-- The storage mutations among a list of effects. -/
def storageEffects (fx : List Effect) : List Effect :=
  fx.filter (fun eff => match eff with
    | .storageWrite _ _ => true
    | .storageRemove _ => true
    | _ => false)

/-- The event dispatches among a list of effects. -/
def dispatchEffects (fx : List Effect) : List Effect :=
  fx.filter (fun eff => match eff with
    | .dispatchEvent _ _ _ _ => true
    | _ => false)

/-- A child node of the form, as far as the message logic observes it:
a `.form-message` element, the submit button (with its `disabled` state),
or anything else. -/
inductive FormNode where
  | message (kind : MsgKind) (text : JStr)
  | submit (disabled : Bool)
  | other
deriving DecidableEq

def isMessageNode : FormNode → Bool
  | .message _ _ => true
  | _ => false

def isSubmitNode : FormNode → Bool
  | .submit _ => true
  | _ => false

/-- `form.querySelectorAll(".form-message").forEach(msg => msg.remove())`
(sign-in.js lines 200-201 and 233-234). -/
def removeMessages (f : List FormNode) : List FormNode :=
  f.filter (fun n => !(isMessageNode n))

/-- `submitButton.parentNode.insertBefore(messageEl, submitButton)` when a
submit control is found (`querySelector` returns the first one), and
`form.appendChild(messageEl)` otherwise (sign-in.js lines 217-223 and
250-255). -/
def insertBeforeFirstSubmit (m : FormNode) : List FormNode → List FormNode
  | [] => [m]
  | n :: rest =>
    if isSubmitNode n then m :: n :: rest
    else n :: insertBeforeFirstSubmit m rest

/-- `submitButton.disabled = true` on the first submit control, a no-op
when there is none (sign-in.js line 220). -/
def disableFirstSubmit : List FormNode → List FormNode
  | [] => []
  | FormNode.submit _ :: rest => FormNode.submit true :: rest
  | n :: rest => n :: disableFirstSubmit rest

/-- `showSuccessMessage` (sign-in.js lines 198-224): remove every existing
message, insert the success message before the submit control (or append
it), and disable the submit control. -/
def showSuccessMessageDom (f : List FormNode) (text : JStr) : List FormNode :=
  disableFirstSubmit
    (insertBeforeFirstSubmit (.message .success text) (removeMessages f))

/-- `showErrorMessage` (sign-in.js lines 231-261) without the 5000 ms
auto-removal timer, which only ever removes a message element: remove
every existing message and insert the error message before the submit
control (or append it). -/
def showErrorMessageDom (f : List FormNode) (text : JStr) : List FormNode :=
  insertBeforeFirstSubmit (.message .error text) (removeMessages f)

/-- Number of `.form-message` elements in the form. -/
def messageCount (f : List FormNode) : Nat := (f.filter isMessageNode).length

/-- One message display triggered by a submission: each run of the submit
listener calls exactly one of `showSuccessMessage` / `showErrorMessage`. -/
inductive ShowOp where
  | showSuccess (text : JStr)
  | showError (text : JStr)

def applyShowOp (f : List FormNode) : ShowOp → List FormNode
  | .showSuccess t => showSuccessMessageDom f t
  | .showError t => showErrorMessageDom f t

def applyShowOps (f : List FormNode) (ops : List ShowOp) : List FormNode :=
  ops.foldl applyShowOp f

def SIGNIN_HTML_SEG : JStr := "/sign-in.html".toList
def SIGNIN_SEG : JStr := "/sign-in".toList
def REGISTRATION_HTML_SEG : JStr := "/registration.html".toList
def REGISTRATION_SEG : JStr := "/registration".toList

/-- JavaScript `s.replace(pat, repl)` with a *string* pattern: replace
the first occurrence of `pat`, leave the string unchanged when `pat`
does not occur. -/
def replaceFirst (pat repl : JStr) : JStr → JStr
  | [] => if pat.isEmpty then repl else []
  | c :: rest =>
    if pat.isPrefixOf (c :: rest) then repl ++ (c :: rest).drop pat.length
    else c :: replaceFirst pat repl rest

/-- The registration-path construction (sign-in.js lines 281-297).
Authoring branch: `currentPath.replace("/sign-in.html",
"/registration.html")`, i.e. replace the first occurrence of the literal
substring.  Published branch:
`currentPath.replace(/\/sign-in(\.html)?$/, "/registration")`; the
end-anchored regex matches exactly when the path ends with `/sign-in` or
`/sign-in.html` (the two cases are mutually exclusive), and that suffix
is replaced. -/
def composeRegistrationPath (isAuthoring : Bool) (currentPath : JStr) : JStr :=
  if isAuthoring then
    replaceFirst SIGNIN_HTML_SEG REGISTRATION_HTML_SEG currentPath
  else if SIGNIN_HTML_SEG.isSuffixOf currentPath then
    currentPath.take (currentPath.length - SIGNIN_HTML_SEG.length) ++
      REGISTRATION_SEG
  else if SIGNIN_SEG.isSuffixOf currentPath then
    currentPath.take (currentPath.length - SIGNIN_SEG.length) ++
      REGISTRATION_SEG
  else currentPath

/-- The transform claimed for the authoring branch, modelled from the
claim's words: only a *trailing* `/sign-in.html` segment is replaced
with `/registration.html`; the published branch as in the code. -/
def composeRegistrationPathClaim (isAuthoring : Bool) (currentPath : JStr) :
    JStr :=
  if isAuthoring then
    if SIGNIN_HTML_SEG.isSuffixOf currentPath then
      currentPath.take (currentPath.length - SIGNIN_HTML_SEG.length) ++
        REGISTRATION_HTML_SEG
    else currentPath
  else composeRegistrationPath false currentPath

example : emailMatch "a@b.c".toList = true := by decide
example : emailMatch "a@b.c.d".toList = true := by decide
example : emailMatch "a@.c".toList = false := by decide
example : emailMatch "a@b.".toList = false := by decide
example : emailMatch "a@@b.c".toList = false := by decide
example : emailMatch "a b@c.d".toList = false := by decide
example : isValidEmailS "  alice@example.com  ".toList = true := by decide
example : isValidEmailS "".toList = false := by decide

example :
    sanitizeStored "  \"alice@example.com\"  ".toList =
      "alice@example.com".toList := by decide

example :
    (handleSubmit true
      [(REGISTERED_EMAIL_KEY, "  \"alice@example.com\"  ".toList)]
      "ALICE@example.com".toList "pw".toList "2025-01-01T00:00:00.000Z".toList).1
    = .Accepted := by decide

example :
    (handleSubmit true [] "bob@example.com".toList "pw".toList "t".toList).1
    = .RejectedNoAccount := by decide

example :
    (handleSubmit true
      [(REGISTERED_EMAIL_KEY, "alice@example.com".toList)]
      "bob@example.com".toList "pw".toList "t".toList).1
    = .RejectedMismatch := by decide

example :
    (handleSubmit true [] "nonsense".toList "pw".toList "t".toList).1
    = .RejectedInvalidEmail := by decide

example :
    (handleSubmit true [] "a@b.c".toList "   ".toList "t".toList).1
    = .RejectedEmptyPassword := by decide

example :
    composeRegistrationPath false "/en/sign-in".toList =
      "/en/registration".toList := by decide

example :
    composeRegistrationPath false "/en/sign-in.html".toList =
      "/en/registration".toList := by decide

example :
    composeRegistrationPath true "/en/sign-in.html".toList =
      "/en/registration.html".toList := by decide

example :
    composeRegistrationPath true "/en/sign-in.html/extra".toList =
      "/en/registration.html/extra".toList := by decide

example :
    composeRegistrationPathClaim true "/en/sign-in.html/extra".toList =
      "/en/sign-in.html/extra".toList := by decide

example :
    composeRegistrationPath false "/en/about".toList =
      "/en/about".toList := by decide

example :
    messageCount (showErrorMessageDom
      [.other, .message .error "x".toList, .submit false] "y".toList) = 1 := by
  decide

theorem replaceFirst_of_not_infix (pat repl : JStr) :
    ∀ s : JStr, ¬ (pat <:+: s) → replaceFirst pat repl s = s := by
  intro s
  induction s with
  | nil =>
    intro h
    cases hp : pat with
    | nil => subst hp; exact absurd List.nil_infix h
    | cons q qt => simp [replaceFirst, hp]
  | cons c rest ih =>
    intro h
    have hpre : ¬ (pat.isPrefixOf (c :: rest) = true) := by
      intro hx
      rw [ List.isPrefixOf_iff_prefix] at hx
      exact h ( List.IsPrefix.isInfix hx)
    simp only [replaceFirst]
    rw [if_neg hpre, ih (fun hx => h ( List.infix_cons hx))]

theorem replaceFirst_first_occ (pat repl : JStr) (hp : pat ≠ []) :
    ∀ a b : JStr, ¬ (pat <:+: a ++ pat.dropLast) →
      replaceFirst pat repl (a ++ pat ++ b) = a ++ repl ++ b := by
  intro a
  induction a with
  | nil =>
    intro b _
    cases pat with
    | nil => exact absurd rfl hp
    | cons q qt =>
      simp only [List.nil_append, List.cons_append]
      simp only [replaceFirst]
      rw [if_pos]
      · have h2 : (q :: (qt ++ b)).drop (q :: qt).length = b := by
          have := List.drop_left (q :: qt) b
          simpa only [List.cons_append] using this
        rw [h2]
      · rw [ List.isPrefixOf_iff_prefix]
        have := List.prefix_append (q :: qt) b
        simpa only [List.cons_append] using this
  | cons x a' ih =>
    intro b hocc
    have hninf : ¬ (pat <:+: a' ++ pat.dropLast) :=
      fun hx => hocc ( List.infix_cons hx)
    have hplen : 0 < pat.length := List.length_pos.mpr hp
    simp only [List.cons_append]
    have hpre : ¬ (pat.isPrefixOf (x :: (a' ++ pat ++ b)) = true) := by
      intro hx0
      rw [ List.isPrefixOf_iff_prefix] at hx0
      have hx : pat <+: (x :: a') ++ pat ++ b := by
        simpa only [List.cons_append] using hx0
      apply hocc
      have hdec : ((x :: a') ++ pat) ++ b
          = ((x :: a') ++ pat.dropLast) ++ (pat.drop (pat.length - 1) ++ b) := by
        rw [List.dropLast_eq_take]
        conv_lhs => rw [← List.take_append_drop (pat.length - 1) pat]
        simp only [List.append_assoc]
      have hlen : pat.length ≤ ((x :: a') ++ pat.dropLast).length := by
        simp only [List.length_append, List.length_cons, List.length_dropLast]
        omega
      have hx2 : pat = (((x :: a') ++ pat) ++ b).take pat.length := by
        rw [List.prefix_iff_eq_take] at hx
        exact hx
      rw [hdec, List.take_append_of_le_length hlen] at hx2
      have hfin := List.IsPrefix.isInfix
        ( List.take_prefix pat.length ((x :: a') ++ pat.dropLast))
      rw [← hx2] at hfin
      simpa only [List.cons_append] using hfin
    simp only [replaceFirst]
    rw [if_neg hpre]
    have := ih b hninf
    simp only [List.cons_append] at this ⊢
    rw [this]

/-- C6 counterexample: the claim says the authoring branch replaces only a
*trailing* `/sign-in.html` segment, but the code's string-argument
`replace` rewrites the first occurrence anywhere: on the path
`/en/sign-in.html/extra` (which has no trailing `/sign-in.html` segment)
the code produces `/en/registration.html/extra`, while the claimed
trailing-only transform leaves the path unchanged. -/
theorem C6_counterexample :
    composeRegistrationPath true "/en/sign-in.html/extra".toList
        = "/en/registration.html/extra".toList
    ∧ composeRegistrationPathClaim true "/en/sign-in.html/extra".toList
        = "/en/sign-in.html/extra".toList
    ∧ composeRegistrationPath true "/en/sign-in.html/extra".toList
        ≠ composeRegistrationPathClaim true "/en/sign-in.html/extra".toList := by
  refine ⟨by decide, by decide, by decide⟩

/-- C6 (amended): the registration path is a pure string transform of the
current page path.  When `isAuthoring` is true, the *first occurrence* of
the substring `/sign-in.html` is replaced with `/registration.html` (the
path is unchanged when it does not occur); otherwise a trailing
`/sign-in` or `/sign-in.html` segment, anchored at the end of the path,
is replaced with `/registration` (unchanged when neither suffix is
present).  In particular `/en/sign-in` with `isAuthoring = false` yields
`/en/registration`, and `/en/sign-in.html` with `isAuthoring = true`
yields `/en/registration.html`. -/
theorem C6_path_compose_amended :
    (∀ s : JStr, ¬ (SIGNIN_HTML_SEG <:+: s) →
        composeRegistrationPath true s = s)
    ∧ (∀ a b : JStr, ¬ (SIGNIN_HTML_SEG <:+: a ++ SIGNIN_HTML_SEG.dropLast) →
        composeRegistrationPath true (a ++ SIGNIN_HTML_SEG ++ b)
          = a ++ REGISTRATION_HTML_SEG ++ b)
    ∧ (∀ s : JStr, composeRegistrationPath false (s ++ SIGNIN_HTML_SEG)
          = s ++ REGISTRATION_SEG)
    ∧ (∀ s : JStr, composeRegistrationPath false (s ++ SIGNIN_SEG)
          = s ++ REGISTRATION_SEG)
    ∧ (∀ s : JStr, ¬ (SIGNIN_SEG <:+ s) → ¬ (SIGNIN_HTML_SEG <:+ s) →
        composeRegistrationPath false s = s)
    ∧ composeRegistrationPath false "/en/sign-in".toList
        = "/en/registration".toList
    ∧ composeRegistrationPath true "/en/sign-in.html".toList
        = "/en/registration.html".toList := by
  refine ⟨?_, ?_, ?_, ?_, ?_, by decide, by decide⟩
  · intro s h
    simp only [composeRegistrationPath, if_true]
    exact replaceFirst_of_not_infix _ _ s h
  · intro a b h
    simp only [composeRegistrationPath, if_true]
    exact replaceFirst_first_occ _ _ (by decide) a b h
  · intro s
    have hsuf : SIGNIN_HTML_SEG.isSuffixOf (s ++ SIGNIN_HTML_SEG) = true := by
      rw [List.isSuffixOf_iff_suffix]
      exact List.suffix_append s SIGNIN_HTML_SEG
    simp only [composeRegistrationPath, Bool.false_eq_true, if_false, hsuf,
      if_true]
    have hlen : (s ++ SIGNIN_HTML_SEG).length - SIGNIN_HTML_SEG.length
        = s.length := by
      simp [List.length_append]
    rw [hlen, List.take_left]
  · intro s
    have hne : SIGNIN_HTML_SEG.isSuffixOf (s ++ SIGNIN_SEG) = false := by
      rw [Bool.eq_false_iff]
      intro hx
      rw [List.isSuffixOf_iff_suffix] at hx
      obtain ⟨t, ht⟩ := hx
      have h1 := congrArg List.getLast? ht
      have hH : SIGNIN_HTML_SEG.getLast? = some 'l' := by decide
      have hS : SIGNIN_SEG.getLast? = some 'n' := by decide
      rw [List.getLast?_append, List.getLast?_append, hH, hS] at h1
      simp at h1
    have hsuf : SIGNIN_SEG.isSuffixOf (s ++ SIGNIN_SEG) = true := by
      rw [List.isSuffixOf_iff_suffix]
      exact List.suffix_append s SIGNIN_SEG
    simp only [composeRegistrationPath, Bool.false_eq_true, if_false, hne,
      hsuf, if_true]
    have hlen : (s ++ SIGNIN_SEG).length - SIGNIN_SEG.length = s.length := by
      simp [List.length_append]
    rw [hlen, List.take_left]
  · intro s h1 h2
    have e1 : SIGNIN_SEG.isSuffixOf s = false := by
      rw [Bool.eq_false_iff]
      intro hx
      exact h1 (List.isSuffixOf_iff_suffix.mp hx)
    have e2 : SIGNIN_HTML_SEG.isSuffixOf s = false := by
      rw [Bool.eq_false_iff]
      intro hx
      exact h2 (List.isSuffixOf_iff_suffix.mp hx)
    simp only [composeRegistrationPath, Bool.false_eq_true, if_false, e1, e2]

/-- C6 amended, witness: the first-occurrence replacement at a concrete
authoring path. -/
theorem C6_path_compose_amended_witness :
    composeRegistrationPath true
        ("/en".toList ++ SIGNIN_HTML_SEG ++ "/x".toList)
      = "/en".toList ++ REGISTRATION_HTML_SEG ++ "/x".toList :=
  C6_path_compose_amended.2.1 "/en".toList "/x".toList (by decide)

/-- C10: in both environments the registration-path transform is the
identity on any path that contains no occurrence of the substring
`/sign-in`. -/
theorem C10_identity_no_signin (b : Bool) (s : JStr)
    (h : ¬ (SIGNIN_SEG <:+: s)) : composeRegistrationPath b s = s := by
  have hpre : SIGNIN_SEG <+: SIGNIN_HTML_SEG := by decide
  cases b with
  | true =>
    have hninf : ¬ (SIGNIN_HTML_SEG <:+: s) := by
      intro hx
      exact h ( List.IsInfix.trans ( List.IsPrefix.isInfix hpre) hx)
    simp only [composeRegistrationPath, if_true]
    exact replaceFirst_of_not_infix _ _ s hninf
  | false =>
    have h1 : ¬ (SIGNIN_HTML_SEG <:+ s) := by
      intro hx
      exact h ( List.IsInfix.trans ( List.IsPrefix.isInfix hpre)
        ( List.IsSuffix.isInfix hx))
    have h2 : ¬ (SIGNIN_SEG <:+ s) := fun hx => h ( List.IsSuffix.isInfix hx)
    have e1 : SIGNIN_SEG.isSuffixOf s = false := by
      rw [Bool.eq_false_iff]
      intro hx
      exact h2 (List.isSuffixOf_iff_suffix.mp hx)
    have e2 : SIGNIN_HTML_SEG.isSuffixOf s = false := by
      rw [Bool.eq_false_iff]
      intro hx
      exact h1 (List.isSuffixOf_iff_suffix.mp hx)
    simp only [composeRegistrationPath, Bool.false_eq_true, if_false, e1, e2]

/-- C10 witness: a concrete path without `/sign-in` is unchanged in both
environments. -/
theorem C10_identity_no_signin_witness :
    composeRegistrationPath true "/en/about".toList = "/en/about".toList
    ∧ composeRegistrationPath false "/en/about".toList = "/en/about".toList :=
  ⟨C10_identity_no_signin true "/en/about".toList (by decide),
   C10_identity_no_signin false "/en/about".toList (by decide)⟩

theorem messageCount_removeMessages (f : List FormNode) :
    messageCount (removeMessages f) = 0 := by
  simp [messageCount, removeMessages, List.filter_filter]

theorem messageCount_insertBefore (m : FormNode) (hm : isMessageNode m = true) :
    ∀ f : List FormNode,
      messageCount (insertBeforeFirstSubmit m f) = messageCount f + 1 := by
  intro f
  induction f with
  | nil => simp [insertBeforeFirstSubmit, messageCount, List.filter_cons, hm]
  | cons n f' ih =>
    cases n with
    | message k t =>
      simp only [insertBeforeFirstSubmit, isSubmitNode, Bool.false_eq_true,
        if_false, messageCount, List.filter_cons, isMessageNode] at ih ⊢
      simp only [if_true, List.length_cons]
      omega
    | submit d =>
      have h1 : isSubmitNode (FormNode.submit d) = true := rfl
      have h2 : isMessageNode (FormNode.submit d) = false := rfl
      simp only [insertBeforeFirstSubmit, h1, if_true, messageCount,
        List.filter_cons, hm, h2, Bool.false_eq_true, if_false,
        List.length_cons]
    | other =>
      simp only [insertBeforeFirstSubmit, isSubmitNode, Bool.false_eq_true,
        if_false, messageCount, List.filter_cons, isMessageNode] at ih ⊢
      simpa using ih

theorem messageCount_disable :
    ∀ f : List FormNode,
      messageCount (disableFirstSubmit f) = messageCount f := by
  intro f
  induction f with
  | nil => rfl
  | cons n f' ih =>
    cases n with
    | message k t =>
      simp only [disableFirstSubmit, messageCount, List.filter_cons,
        isMessageNode] at ih ⊢
      simpa using ih
    | submit d => simp [disableFirstSubmit, messageCount, List.filter_cons,
        isMessageNode]
    | other =>
      simp only [disableFirstSubmit, messageCount, List.filter_cons,
        isMessageNode] at ih ⊢
      simpa using ih

theorem showSuccessMessageDom_count (f : List FormNode) (t : JStr) :
    messageCount (showSuccessMessageDom f t) = 1 := by
  unfold showSuccessMessageDom
  rw [messageCount_disable,
    messageCount_insertBefore (FormNode.message .success t) rfl,
    messageCount_removeMessages]

theorem showErrorMessageDom_count (f : List FormNode) (t : JStr) :
    messageCount (showErrorMessageDom f t) = 1 := by
  unfold showErrorMessageDom
  rw [messageCount_insertBefore (FormNode.message .error t) rfl,
    messageCount_removeMessages]

theorem applyShowOp_count (f : List FormNode) (op : ShowOp) :
    messageCount (applyShowOp f op) = 1 := by
  cases op with
  | showSuccess t => exact showSuccessMessageDom_count f t
  | showError t => exact showErrorMessageDom_count f t

theorem applyShowOps_count :
    ∀ (ops : List ShowOp) (f : List FormNode), ops ≠ [] →
      messageCount (applyShowOps f ops) = 1 := by
  intro ops
  induction ops with
  | nil => intro f h; exact absurd rfl h
  | cons op rest ih =>
    intro f _
    show messageCount (applyShowOps (applyShowOp f op) rest) = 1
    cases rest with
    | nil => exact applyShowOp_count f op
    | cons op2 rest2 => exact ih (applyShowOp f op) (by simp)

/-- C8: showing a message of either kind first removes every existing
message element and then inserts exactly one new one (before the first
submit control, or appended when none exists), so any single show leaves
exactly one message in the form, and after any number of sequential
submissions, each of which shows one message, the form contains at most
one message element. -/
theorem C8_single_message :
    (∀ (f : List FormNode) (t : JStr),
        messageCount (showSuccessMessageDom f t) = 1
        ∧ messageCount (showErrorMessageDom f t) = 1)
    ∧ (∀ (ops : List ShowOp) (f : List FormNode),
        messageCount f ≤ 1 → messageCount (applyShowOps f ops) ≤ 1)
    ∧ (∀ (ops : List ShowOp) (f : List FormNode), ops ≠ [] →
        messageCount (applyShowOps f ops) = 1) := by
  refine ⟨fun f t => ⟨showSuccessMessageDom_count f t,
      showErrorMessageDom_count f t⟩, ?_, applyShowOps_count⟩
  intro ops f hf
  cases ops with
  | nil => exact hf
  | cons op rest =>
    rw [applyShowOps_count (op :: rest) f (by simp)]

/-- C8 witness: one error display on a form that already shows a message
leaves exactly one message element. -/
theorem C8_single_message_witness :
    messageCount (applyShowOps
      [FormNode.other, FormNode.message .error "old".toList,
        FormNode.submit false]
      [ShowOp.showError "new".toList]) = 1 :=
  C8_single_message.2.2 [ShowOp.showError "new".toList]
    [FormNode.other, FormNode.message .error "old".toList,
      FormNode.submit false] (by simp)

theorem takeWhile_append_stop (p : Char → Bool) :
    ∀ (a : JStr) (x : Char) (r : JStr), a.all p = true → p x = false →
      (a ++ x :: r).takeWhile p = a ∧ (a ++ x :: r).dropWhile p = x :: r := by
  intro a
  induction a with
  | nil =>
    intro x r _ hx
    constructor
    · simp [List.takeWhile_cons, hx]
    · simp [List.dropWhile_cons, hx]
  | cons c a' ih =>
    intro x r hall hx
    rw [List.all_cons, Bool.and_eq_true] at hall
    obtain ⟨h1, h2⟩ := ih x r hall.2 hx
    constructor
    · simp [List.takeWhile_cons, hall.1, h1]
    · simp [List.dropWhile_cons, hall.1, h2]

theorem dropWhile_head_not (p : Char → Bool) :
    ∀ (l : JStr) (x : Char) (xs : JStr),
      l.dropWhile p = x :: xs → p x = false := by
  intro l
  induction l with
  | nil => intro x xs h; simp [List.dropWhile] at h
  | cons c t ih =>
    intro x xs h
    rw [List.dropWhile_cons] at h
    by_cases hc : p c = true
    · rw [if_pos hc] at h
      exact ih x xs h
    · rw [if_neg hc] at h
      injection h with h1 _
      subst h1
      exact Bool.eq_false_iff.mpr hc

/-- The trimmed string sits inside the original: `s = lead ++ trim s ++
tail` for some (whitespace) `lead` and `tail`. -/
theorem trim_infix_decomp (s : JStr) :
    ∃ lead tail : JStr, s = lead ++ trim s ++ tail := by
  refine ⟨s.takeWhile jsWhitespace,
    ((s.dropWhile jsWhitespace).reverse.takeWhile jsWhitespace).reverse, ?_⟩
  have h1 := List.takeWhile_append_dropWhile jsWhitespace s
  have h2 := List.takeWhile_append_dropWhile jsWhitespace
    (s.dropWhile jsWhitespace).reverse
  have h3 := congrArg List.reverse h2
  rw [List.reverse_append, List.reverse_reverse] at h3
  unfold trim
  conv_lhs => rw [← h1, ← h3]
  simp [List.append_assoc]

theorem atom_not_at {c : Char} (h : isEmailAtomChar c = true) :
    (c == '@') = false := by
  cases hc : (c == '@') with
  | false => rfl
  | true => simp [isEmailAtomChar, hc] at h

/-- An interior dot in `l.drop 1 |>.dropLast` yields a split of `l` into
nonempty parts around a dot. -/
theorem split_of_dot_interior (l : JStr)
    (h : ((l.drop 1).dropLast.any (fun ch => ch == '.')) = true) :
    ∃ b c : JStr, b ≠ [] ∧ c ≠ [] ∧ l = b ++ '.' :: c := by
  cases l with
  | nil => simp at h
  | cons x t =>
    simp only [List.drop_succ_cons, List.drop_zero] at h
    rw [List.any_eq_true] at h
    obtain ⟨a, ha, he⟩ := h
    rw [beq_iff_eq] at he
    subst he
    have ht : t ≠ [] := by
      intro h0
      rw [h0] at ha
      simp at ha
    obtain ⟨u, v, huv⟩ := List.append_of_mem ha
    have hlast := List.dropLast_concat_getLast ht
    refine ⟨x :: u, v ++ [t.getLast ht], by simp, by simp, ?_⟩
    conv_lhs => rw [← hlast, huv]
    simp [List.append_assoc]

/-- A split of `l` into nonempty parts around a dot puts a dot strictly
inside `l.drop 1 |>.dropLast`. -/
theorem dot_interior_of_split (b c : JStr) (hb : b ≠ []) (hc : c ≠ []) :
    (((b ++ '.' :: c).drop 1).dropLast.any (fun ch => ch == '.')) = true := by
  cases b with
  | nil => exact absurd rfl hb
  | cons x b' =>
    cases c with
    | nil => exact absurd rfl hc
    | cons y c' =>
      simp only [List.cons_append, List.drop_succ_cons, List.drop_zero]
      rw [List.dropLast_append_cons]
      simp

/-- The executable regex matcher agrees with the declarative pattern of
the spec. -/
theorem emailMatch_iff (s : JStr) :
    emailMatch s = true ↔ emailPatternSpec s := by
  constructor
  · intro h
    simp only [emailMatch, Bool.and_eq_true] at h
    obtain ⟨⟨⟨⟨h1, h2⟩, h3⟩, h4⟩, h5⟩ := h
    cases hrest : s.dropWhile (fun c => !(c == '@')) with
    | nil =>
      rw [hrest] at h2
      simp at h2
    | cons r0 after =>
      have hr0 : (fun c => !(c == '@')) r0 = false :=
        dropWhile_head_not _ s r0 after hrest
      simp only [Bool.not_eq_false', beq_iff_eq] at hr0
      subst hr0
      rw [hrest] at h4 h5
      simp only [List.drop_succ_cons, List.drop_zero] at h4 h5
      obtain ⟨b, c, hb, hc, habc⟩ := split_of_dot_interior after h5
      have hs : s = s.takeWhile (fun c => !(c == '@')) ++ '@' :: after := by
        conv_lhs => rw [← List.takeWhile_append_dropWhile
          (fun c => !(c == '@')) s, hrest]
      refine ⟨s.takeWhile (fun c => !(c == '@')), b, c, ?_, hb, hc, h3, ?_, ?_,
        ?_⟩
      · intro h0
        rw [h0] at h1
        simp at h1
      · rw [habc] at h4
        simp only [List.all_append, List.all_cons, Bool.and_eq_true] at h4
        exact h4.1
      · rw [habc] at h4
        simp only [List.all_append, List.all_cons, Bool.and_eq_true] at h4
        exact h4.2.2
      · rw [habc] at hs
        exact hs
  · rintro ⟨a, b, c, ha, hb, hc, haa, hba, hca, hs⟩
    subst hs
    have hstop : (fun ch => !(ch == '@')) '@' = false := by simp
    have hall : a.all (fun ch => !(ch == '@')) = true := by
      rw [List.all_eq_true] at haa ⊢
      intro x hx
      simp [atom_not_at (haa x hx)]
    obtain ⟨htw, hdw⟩ :=
      takeWhile_append_stop (fun ch => !(ch == '@')) a '@' (b ++ '.' :: c)
        hall hstop
    simp only [emailMatch, htw, hdw, Bool.and_eq_true, List.drop_succ_cons,
      List.drop_zero]
    refine ⟨⟨⟨⟨?_, by simp⟩, haa⟩, ?_⟩, dot_interior_of_split b c hb hc⟩
    · simp [ha]
    · have hdot : isEmailAtomChar '.' = true := by decide
      simp only [List.all_append, List.all_cons, Bool.and_eq_true]
      exact ⟨hba, hdot, hca⟩

/-- C3: `isValidEmail` returns false for every non-string or empty input,
and otherwise returns true exactly when the trimmed value matches the
pattern "one-or-more characters that are neither whitespace nor `@`, a
literal `@`, one-or-more such characters, a literal `.`, one-or-more such
characters"; consequently every string without an `@`, or without a `.`
after the `@`, is rejected.  (The embedding of `isValidEmail` is a pure
function, so freedom from side effects holds by construction.) -/
theorem C3_isValidEmail_charac :
    (isValidEmail .nonString = false ∧ isValidEmail (.str []) = false)
    ∧ (∀ s : JStr, isValidEmail (.str s) = true ↔
        (s ≠ [] ∧ emailPatternSpec (trim s)))
    ∧ (∀ s : JStr, '@' ∉ s → isValidEmail (.str s) = false)
    ∧ (∀ s : JStr, (∀ pre post : JStr, s = pre ++ '@' :: post → '.' ∉ post) →
        isValidEmail (.str s) = false) := by
  have key : ∀ s : JStr, isValidEmail (.str s) = true ↔
      (s ≠ [] ∧ emailPatternSpec (trim s)) := by
    intro s
    cases s with
    | nil => simp [isValidEmail]
    | cons c t =>
      rw [show isValidEmail (.str (c :: t)) = emailMatch (trim (c :: t))
        from rfl]
      rw [emailMatch_iff]
      simp
  refine ⟨⟨rfl, rfl⟩, key, ?_, ?_⟩
  · intro s hat
    rw [Bool.eq_false_iff]
    intro htrue
    obtain ⟨-, a, b, c, -, -, -, -, -, -, hdec⟩ := (key s).mp htrue
    obtain ⟨lead, tail, hlt⟩ := trim_infix_decomp s
    apply hat
    rw [hlt, hdec]
    simp
  · intro s hdot
    rw [Bool.eq_false_iff]
    intro htrue
    obtain ⟨-, a, b, c, -, -, -, -, -, -, hdec⟩ := (key s).mp htrue
    obtain ⟨lead, tail, hlt⟩ := trim_infix_decomp s
    rw [hdec] at hlt
    have hform : s = (lead ++ a) ++ '@' :: (b ++ '.' :: (c ++ tail)) := by
      rw [hlt]
      simp [List.append_assoc]
    exact hdot (lead ++ a) (b ++ '.' :: (c ++ tail)) hform (by simp)

/-- C3 witness: a concrete string without an `@` is rejected. -/
theorem C3_isValidEmail_charac_witness :
    isValidEmail (.str "plainaddress".toList) = false :=
  C3_isValidEmail_charac.2.2.1 "plainaddress".toList (by decide)

/-- Exhaustive enumeration of the submit handler's possible results. -/
theorem handleSubmit_enum (ok : Bool) (st : Storage) (e p ts : JStr) :
    handleSubmit ok st e p ts
        = (.RejectedInvalidEmail,
            [.showMessage .error MSG_INVALID_EMAIL, .focus .emailField])
    ∨ handleSubmit ok st e p ts
        = (.RejectedEmptyPassword,
            [.showMessage .error MSG_EMPTY_PASSWORD, .focus .passwordField])
    ∨ handleSubmit ok st e p ts
        = (.RejectedNoAccount, [.showMessage .error MSG_NO_ACCOUNT])
    ∨ handleSubmit ok st e p ts
        = (.RejectedMismatch,
            [.showMessage .error MSG_MISMATCH, .focus .emailField])
    ∨ (ok = true ∧ handleSubmit ok st e p ts
        = (.Accepted,
            [.storageWrite SESSION_FLAG_KEY ("true".toList),
             .dispatchEvent ("login".toList) true (trim e) ts,
             .showMessage .success MSG_SUCCESS,
             .scheduleRedirect ("/".toList) 1500]))
    ∨ (ok = false ∧ handleSubmit ok st e p ts
        = (.Accepted, [.showMessage .error MSG_SIGNIN_FAILED])) := by
  simp only [handleSubmit]
  by_cases h1 : (!(isValidEmailS (trim e))) = true
  · left
    rw [if_pos h1]
  · rw [if_neg h1]
    by_cases h2 : (p.isEmpty || (trim p).isEmpty) = true
    · right; left
      rw [if_pos h2]
    · rw [if_neg h2]
      cases hr : readCredential st with
      | none => right; right; left; rfl
      | some r =>
        dsimp only
        by_cases h3 : (!(toLowerCase (trim e) == toLowerCase r)) = true
        · right; right; right; left
          rw [if_pos h3]
        · rw [if_neg h3]
          cases ok with
          | true =>
            right; right; right; right; left
            exact ⟨rfl, rfl⟩
          | false =>
            right; right; right; right; right
            exact ⟨rfl, rfl⟩

/-- C1: the authentication decision is computed in a fixed order,
short-circuiting on the first failure: invalid (trimmed) email, then
empty/whitespace-only password, then absent sanitized credential record,
then lower-cased inequality; otherwise Accepted.  Moreover, when either
validation fails, the result is independent of the store contents (and of
the clock), i.e. the store is not read. -/
theorem C1_decision_order (ok : Bool) (st st' : Storage)
    (e p ts ts' : JStr) :
    ((handleSubmit ok st e p ts).1 =
      if !(isValidEmailS (trim e)) then .RejectedInvalidEmail
      else if p.isEmpty || (trim p).isEmpty then .RejectedEmptyPassword
      else
        match readCredential st with
        | none => .RejectedNoAccount
        | some r =>
          if !(toLowerCase (trim e) == toLowerCase r) then .RejectedMismatch
          else .Accepted)
    ∧ (((!(isValidEmailS (trim e))) = true
          ∨ (p.isEmpty || (trim p).isEmpty) = true) →
        handleSubmit ok st e p ts = handleSubmit ok st' e p ts') := by
  constructor
  · simp only [handleSubmit]
    by_cases h1 : (!(isValidEmailS (trim e))) = true
    · rw [if_pos h1, if_pos h1]
    · rw [if_neg h1, if_neg h1]
      by_cases h2 : (p.isEmpty || (trim p).isEmpty) = true
      · rw [if_pos h2, if_pos h2]
      · rw [if_neg h2, if_neg h2]
        cases hr : readCredential st with
        | none => rfl
        | some r =>
          dsimp only
          by_cases h3 : (!(toLowerCase (trim e) == toLowerCase r)) = true
          · rw [if_pos h3, if_pos h3]
          · rw [if_neg h3, if_neg h3]
            cases ok <;> rfl
  · intro h
    simp only [handleSubmit]
    by_cases h1 : (!(isValidEmailS (trim e))) = true
    · rw [if_pos h1, if_pos h1]
    · rw [if_neg h1, if_neg h1]
      cases h with
      | inl hx => exact absurd hx h1
      | inr h2 => rw [if_pos h2, if_pos h2]

/-- C1 witness: with an invalid entered email, two different stores and
clocks produce the same result. -/
theorem C1_decision_order_witness :
    handleSubmit true [] "bad".toList "pw".toList "t1".toList
      = handleSubmit true [(REGISTERED_EMAIL_KEY, "x".toList)]
          "bad".toList "pw".toList "t2".toList :=
  (C1_decision_order true [] [(REGISTERED_EMAIL_KEY, "x".toList)]
      "bad".toList "pw".toList "t1".toList "t2".toList).2 (Or.inl (by decide))

/-- C2: across every submission and every outcome, the only local-storage
mutation among the flow's effects is the session-flag write with value
`"true"`; under normal effect application (`ok = true`) that write occurs
if and only if the outcome is Accepted; the flow never writes any other
key and never removes a key, and on every non-Accepted outcome the list
of storage mutations is empty. -/
theorem C2_storage_discipline (ok : Bool) (st : Storage)
    (fields : Option (JStr × JStr)) (ts : JStr) :
    (∀ eff ∈ (handleSubmitEvent ok st fields ts).2,
        (∀ k v, eff = Effect.storageWrite k v →
            k = SESSION_FLAG_KEY ∧ v = "true".toList)
        ∧ (∀ k, eff ≠ Effect.storageRemove k))
    ∧ (ok = true →
        (Effect.storageWrite SESSION_FLAG_KEY ("true".toList)
            ∈ (handleSubmitEvent ok st fields ts).2
          ↔ (handleSubmitEvent ok st fields ts).1 = some AuthOutcome.Accepted))
    ∧ ((handleSubmitEvent ok st fields ts).1 ≠ some AuthOutcome.Accepted →
        storageEffects (handleSubmitEvent ok st fields ts).2 = []) := by
  cases fields with
  | none =>
    refine ⟨?_, ?_, ?_⟩
    · intro eff he
      simp only [handleSubmitEvent, List.mem_singleton] at he
      subst he
      exact ⟨fun k v h => (nomatch h), fun k h => nomatch h⟩
    · intro _
      simp [handleSubmitEvent]
    · intro _
      rfl
  | some ep =>
    obtain ⟨e, p⟩ := ep
    have hener := handleSubmit_enum ok st e p ts
    simp only [handleSubmitEvent]
    rcases hener with h|h|h|h|⟨hok, h⟩|⟨hok, h⟩ <;> rw [h]
    · refine ⟨?_, by simp, fun _ => rfl⟩
      intro eff he
      simp only [List.mem_cons, List.not_mem_nil, or_false] at he
      rcases he with he | he <;> subst he <;>
        exact ⟨fun k v h => (nomatch h), fun k h => nomatch h⟩
    · refine ⟨?_, by simp, fun _ => rfl⟩
      intro eff he
      simp only [List.mem_cons, List.not_mem_nil, or_false] at he
      rcases he with he | he <;> subst he <;>
        exact ⟨fun k v h => (nomatch h), fun k h => nomatch h⟩
    · refine ⟨?_, by simp, fun _ => rfl⟩
      intro eff he
      simp only [List.mem_singleton] at he
      subst he
      exact ⟨fun k v h => (nomatch h), fun k h => nomatch h⟩
    · refine ⟨?_, by simp, fun _ => rfl⟩
      intro eff he
      simp only [List.mem_cons, List.not_mem_nil, or_false] at he
      rcases he with he | he <;> subst he <;>
        exact ⟨fun k v h => (nomatch h), fun k h => nomatch h⟩
    · refine ⟨?_, ?_, ?_⟩
      · intro eff he
        simp only [List.mem_cons, List.not_mem_nil, or_false] at he
        rcases he with he | he | he | he <;> subst he <;>
          refine ⟨fun k v hkv => ?_, fun k hk => nomatch hk⟩
        · injection hkv with h1 h2
          exact ⟨h1.symm, h2.symm⟩
        · exact nomatch hkv
        · exact nomatch hkv
        · exact nomatch hkv
      · intro _
        simp
      · intro hne
        exact absurd rfl hne
    · refine ⟨?_, ?_, fun _ => rfl⟩
      · intro eff he
        simp only [List.mem_singleton] at he
        subst he
        exact ⟨fun k v h => (nomatch h), fun k h => nomatch h⟩
      · intro hok'
        rw [hok'] at hok
        exact nomatch hok

/-- C2 witness: with a working store, an empty credential store and valid
inputs, the session-flag write happens exactly when the outcome is
Accepted. -/
theorem C2_storage_discipline_witness :
    Effect.storageWrite SESSION_FLAG_KEY ("true".toList)
        ∈ (handleSubmitEvent true []
            (some ("a@b.c".toList, "pw".toList)) "t".toList).2
      ↔ (handleSubmitEvent true []
            (some ("a@b.c".toList, "pw".toList)) "t".toList).1
          = some AuthOutcome.Accepted :=
  (C2_storage_discipline true [] (some ("a@b.c".toList, "pw".toList))
      "t".toList).2.1 rfl

/-- C5: on an Accepted outcome with working effect application, the flow
performs exactly the four success effects in order: the session-flag
write of `"true"`, one bubbling `login` event carrying the trimmed,
case-preserved entered email and the clock's ISO timestamp, the success
message `Sign-in successful! Redirecting...`, and a one-shot redirect to
the site root scheduled after a fixed 1500 ms delay; in particular
exactly one event is dispatched. -/
theorem C5_accept_effects (st : Storage) (e p ts : JStr)
    (hacc : (handleSubmit true st e p ts).1 = AuthOutcome.Accepted) :
    (handleSubmit true st e p ts).2
        = [Effect.storageWrite SESSION_FLAG_KEY ("true".toList),
           Effect.dispatchEvent ("login".toList) true (trim e) ts,
           Effect.showMessage .success MSG_SUCCESS,
           Effect.scheduleRedirect ("/".toList) 1500]
    ∧ (dispatchEffects (handleSubmit true st e p ts).2).length = 1 := by
  rcases handleSubmit_enum true st e p ts with h|h|h|h|⟨-, h⟩|⟨hok, -⟩
  · rw [h] at hacc; exact nomatch hacc
  · rw [h] at hacc; exact nomatch hacc
  · rw [h] at hacc; exact nomatch hacc
  · rw [h] at hacc; exact nomatch hacc
  · rw [h]; exact ⟨rfl, rfl⟩
  · exact nomatch hok

/-- C5 witness: the stored record `  "alice@example.com"  ` sanitizes to
`alice@example.com`; submitting `ALICE@example.com` with a non-empty
password is Accepted and produces exactly the four success effects. -/
theorem C5_accept_effects_witness :
    (handleSubmit true
        [(REGISTERED_EMAIL_KEY, "  \"alice@example.com\"  ".toList)]
        "ALICE@example.com".toList "pw".toList
        "2025-01-01T00:00:00.000Z".toList).2
      = [Effect.storageWrite SESSION_FLAG_KEY ("true".toList),
         Effect.dispatchEvent ("login".toList) true
           (trim "ALICE@example.com".toList)
           "2025-01-01T00:00:00.000Z".toList,
         Effect.showMessage .success MSG_SUCCESS,
         Effect.scheduleRedirect ("/".toList) 1500] :=
  (C5_accept_effects
      [(REGISTERED_EMAIL_KEY, "  \"alice@example.com\"  ".toList)]
      "ALICE@example.com".toList "pw".toList
      "2025-01-01T00:00:00.000Z".toList (by decide)).1

/-- C7: the entered password influences the decision only through its
non-emptiness: two submissions differing only in their (non-empty,
non-whitespace-only) passwords have identical outcome and effects; in
particular the password value is never compared against any stored
value. -/
theorem C7_password_noninterference (ok : Bool) (st : Storage)
    (e ts p1 p2 : JStr) (h1 : (trim p1).isEmpty = false)
    (h2 : (trim p2).isEmpty = false) :
    handleSubmit ok st e p1 ts = handleSubmit ok st e p2 ts := by
  have e1 : (p1.isEmpty || (trim p1).isEmpty) = false := by
    rw [Bool.or_eq_false_iff]
    refine ⟨?_, h1⟩
    cases p1 with
    | nil => rw [show trim ([] : JStr) = [] from rfl] at h1; simp at h1
    | cons c t => rfl
  have e2 : (p2.isEmpty || (trim p2).isEmpty) = false := by
    rw [Bool.or_eq_false_iff]
    refine ⟨?_, h2⟩
    cases p2 with
    | nil => rw [show trim ([] : JStr) = [] from rfl] at h2; simp at h2
    | cons c t => rfl
  have n1 : ¬ ((p1.isEmpty || (trim p1).isEmpty) = true) := by
    rw [e1]; simp
  have n2 : ¬ ((p2.isEmpty || (trim p2).isEmpty) = true) := by
    rw [e2]; simp
  simp only [handleSubmit]
  by_cases hv : (!(isValidEmailS (trim e))) = true
  · rw [if_pos hv, if_pos hv]
  · rw [if_neg hv, if_neg hv, if_neg n1, if_neg n2]

/-- C7 witness: two different non-empty passwords give the same result. -/
theorem C7_password_noninterference_witness :
    handleSubmit true [] "a@b.c".toList "hunter2".toList "t".toList
      = handleSubmit true [] "a@b.c".toList "opensesame".toList "t".toList :=
  C7_password_noninterference true [] "a@b.c".toList "t".toList
    "hunter2".toList "opensesame".toList (by decide) (by decide)

/-- C9: a failure while applying the success effects (the storage write
throwing, modelled by `ok = false`) is caught and downgraded to exactly
the message `Sign-in failed. Please try again.`; and every path of the
submission handler ends with either the success message or a user-visible
error message (the embedding is a total function, so no fault
propagates). -/
theorem C9_failure_handling (ok : Bool) (st : Storage)
    (fields : Option (JStr × JStr)) (ts : JStr) :
    (∀ e p, fields = some (e, p) → ok = false →
        (handleSubmit ok st e p ts).1 = AuthOutcome.Accepted →
        (handleSubmit ok st e p ts).2
          = [Effect.showMessage .error MSG_SIGNIN_FAILED])
    ∧ ((∃ t, Effect.showMessage .success t
          ∈ (handleSubmitEvent ok st fields ts).2)
       ∨ (∃ t, Effect.showMessage .error t
          ∈ (handleSubmitEvent ok st fields ts).2)) := by
  constructor
  · intro e p _ hok hacc
    subst hok
    rcases handleSubmit_enum false st e p ts with h|h|h|h|⟨hok2, -⟩|⟨-, h⟩
    · rw [h] at hacc; exact nomatch hacc
    · rw [h] at hacc; exact nomatch hacc
    · rw [h] at hacc; exact nomatch hacc
    · rw [h] at hacc; exact nomatch hacc
    · exact nomatch hok2
    · rw [h]
  · cases fields with
    | none =>
      right
      exact ⟨MSG_FIELDS_NOT_FOUND, by simp [handleSubmitEvent]⟩
    | some ep =>
      obtain ⟨e, p⟩ := ep
      simp only [handleSubmitEvent]
      rcases handleSubmit_enum ok st e p ts with h|h|h|h|⟨-, h⟩|⟨-, h⟩ <;>
        rw [h]
      · exact Or.inr ⟨MSG_INVALID_EMAIL, by simp⟩
      · exact Or.inr ⟨MSG_EMPTY_PASSWORD, by simp⟩
      · exact Or.inr ⟨MSG_NO_ACCOUNT, by simp⟩
      · exact Or.inr ⟨MSG_MISMATCH, by simp⟩
      · exact Or.inl ⟨MSG_SUCCESS, by simp⟩
      · exact Or.inr ⟨MSG_SIGNIN_FAILED, by simp⟩

/-- C9 witness: with a throwing storage write and otherwise accepting
inputs, the flow shows exactly the generic failure message. -/
theorem C9_failure_handling_witness :
    (handleSubmit false [(REGISTERED_EMAIL_KEY, "alice@example.com".toList)]
        "alice@example.com".toList "pw".toList "t".toList).2
      = [Effect.showMessage .error MSG_SIGNIN_FAILED] :=
  (C9_failure_handling false
      [(REGISTERED_EMAIL_KEY, "alice@example.com".toList)]
      (some ("alice@example.com".toList, "pw".toList)) "t".toList).1
    "alice@example.com".toList "pw".toList rfl rfl (by decide)

/-- The sanitization branch of the reader collapses: an empty stored value
sanitizes to itself, so the truthiness guard is immaterial. -/
theorem reader_branch_eq (v0 : JStr) :
    (if v0.isEmpty then v0 else sanitizeStored v0) = sanitizeStored v0 := by
  cases v0 with
  | nil => rfl
  | cons c t => rfl

/-- C4: the credential-store reader reads the single fixed key; its result
depends only on that key's value; a present value is sanitized by
deleting every asterisk and quote character and trimming surrounding
whitespace; the record is absent exactly when the key is missing, the
value is empty after sanitization, or the sanitized value fails
`isValidEmail`; and the stored value `  "alice@example.com"  ` sanitizes
to `alice@example.com`. -/
theorem C4_store_reader (st : Storage) :
    (∀ st' : Storage,
        getItem st REGISTERED_EMAIL_KEY = getItem st' REGISTERED_EMAIL_KEY →
        readCredential st = readCredential st')
    ∧ (readCredential st = none ↔
        (getItem st REGISTERED_EMAIL_KEY = none
         ∨ ∃ v, getItem st REGISTERED_EMAIL_KEY = some v
             ∧ (sanitizeStored v = []
                ∨ isValidEmailS (sanitizeStored v) = false)))
    ∧ (∀ v, getItem st REGISTERED_EMAIL_KEY = some v →
        readCredential st ≠ none →
        readCredential st = some (sanitizeStored v))
    ∧ sanitizeStored "  \"alice@example.com\"  ".toList
        = "alice@example.com".toList := by
  refine ⟨?_, ?_, ?_, by decide⟩
  · intro st' h
    unfold readCredential
    rw [h]
  · cases hg : getItem st REGISTERED_EMAIL_KEY with
    | none =>
      simp only [readCredential, hg]
      constructor
      · intro _
        exact Or.inl trivial
      · intro _
        trivial
    | some v0 =>
      simp only [readCredential, hg, reader_branch_eq]
      by_cases hc : ((sanitizeStored v0).isEmpty
          || !(isValidEmailS (sanitizeStored v0))) = true
      · rw [if_pos hc]
        simp only [Bool.or_eq_true, List.isEmpty_eq_true, Bool.not_eq_true']
          at hc
        constructor
        · intro _
          exact Or.inr ⟨v0, rfl, hc⟩
        · intro _
          rfl
      · rw [if_neg hc]
        simp only [Bool.or_eq_true, List.isEmpty_eq_true, Bool.not_eq_true']
          at hc
        constructor
        · intro h0
          exact nomatch h0
        · intro h0
          rcases h0 with h0 | ⟨v, hv, hd⟩
          · exact nomatch h0
          · injection hv with hv
            subst hv
            exact absurd hd (by tauto)
  · intro v hv hne
    simp only [readCredential, hv, reader_branch_eq] at hne ⊢
    by_cases hc : ((sanitizeStored v).isEmpty
        || !(isValidEmailS (sanitizeStored v))) = true
    · rw [if_pos hc] at hne
      exact absurd rfl hne
    · rw [if_neg hc]

/-- C4 witness: with the quoted, padded alice record stored under the
fixed key, the reader returns exactly the sanitized record. -/
theorem C4_store_reader_witness :
    readCredential
        [(REGISTERED_EMAIL_KEY, "  \"alice@example.com\"  ".toList)]
      = some (sanitizeStored "  \"alice@example.com\"  ".toList) :=
  (C4_store_reader
      [(REGISTERED_EMAIL_KEY, "  \"alice@example.com\"  ".toList)]).2.2.1
    "  \"alice@example.com\"  ".toList (by decide) (by decide)

end SignInModel
